import Mathlib

/-!
Shallow embedding of `src/flight_data.py` (class `FlightDataProcessor`), covering the
analysis pipeline: `is_dirty_record`, `analyze_data` (the per-file scan loop with its
per-file `except Exception` handler), `_calculate_duration_stats` and
`_calculate_passenger_stats`.

Modelling conventions:
* A JSON field of a record is `Option (Option α)`: `none` = key absent from the mapping,
  `some none` = key present with value `null`, `some (some v)` = value `v`.
* Python `dict`s are insertion-ordered association lists (`List (κ × β)`); lookup and
  in-place update act on the first occurrence of a key, matching `dict` semantics.
* Numpy floating-point arithmetic (`np.mean`, `np.percentile`) is modelled exactly over
  `ℚ`, following numpy's documented "linear" percentile method.
* An exception raised while processing a record of a file (e.g. `KeyError` from
  `city_passengers[...]`) is modelled by a `Bool` abort flag: the per-file
  `except Exception` handler makes the scan drop the rest of that file's records while
  keeping all state mutations already performed.
-/

/-- Association-list lookup: the value stored at the first occurrence of `key`
(Python `d[key]` / `key in d`). -/
def lookupA [DecidableEq κ] : List (κ × β) → κ → Option β
  | [], _ => none
  | (k, v) :: rest, key => if key = k then some v else lookupA rest key

/-- Python `key in d`. -/
def hasKey [DecidableEq κ] (l : List (κ × β)) (key : κ) : Bool :=
  (lookupA l key).isSome

/-- In-place update of the value at the first occurrence of `key`
(Python `d[key] = f(d[key])`); no-op when the key is absent. -/
def updateA [DecidableEq κ] : List (κ × β) → κ → (β → β) → List (κ × β)
  | [], _, _ => []
  | (k, v) :: rest, key, f =>
      if key = k then (k, f v) :: rest else (k, v) :: updateA rest key f

/-- A decoded flight record: each of the five known JSON keys may be absent (`none`),
null (`some none`) or carry a value (`some (some v)`). -/
structure FlightRecord where
  date : Option (Option String)
  origin_city : Option (Option String)
  destination_city : Option (Option String)
  flight_duration_secs : Option (Option Int)
  passengers : Option (Option Int)
deriving DecidableEq, Repr

/-- `key not in record or record[key] is None` for one field. -/
def missingOrNull (x : Option (Option α)) : Bool :=
  match x with
  | some (some _) => false
  | _ => true

/-- `FlightDataProcessor.is_dirty_record` (src/flight_data.py:82-93): true iff any of the
four required keys (`date` excluded) is absent or null; the Python loop over
`required_keys` with an early `return True` is this disjunction. -/
def is_dirty_record (record : FlightRecord) : Bool :=
  missingOrNull record.origin_city ||
  missingOrNull record.destination_city ||
  missingOrNull record.flight_duration_secs ||
  missingOrNull record.passengers

/-- Python `record.get(key)`: `None` when the key is absent, else the stored value
(which may itself be `None`). -/
def recGet (x : Option (Option α)) : Option α :=
  match x with
  | some v => v
  | none => none

/-- Mutable state of the `analyze_data` scan loop. -/
structure ScanState where
  total_records : Nat
  dirty_records : Nat
  flight_durations : List (Option String × List Int)
  city_passengers : List (String × Int × Int)
deriving DecidableEq, Repr

/-- One iteration of the `for record in records` loop (src/flight_data.py:117-147).
Returns the updated state and `true` when an exception escaped to the per-file
handler (in reachable states: a `KeyError` from `city_passengers[...]`); mutations
performed before the exception are kept, as in Python. -/
def processRecord (s : ScanState) (r : FlightRecord) : ScanState × Bool :=
  let s1 : ScanState := { s with total_records := s.total_records + 1 }
  if is_dirty_record r then
    ({ s1 with dirty_records := s1.dirty_records + 1 }, false)
  else if missingOrNull r.passengers then
    -- the explicit passengers re-check (src/flight_data.py:124-129)
    ({ s1 with dirty_records := s1.dirty_records + 1 }, false)
  else
    let dest : Option String := recGet r.destination_city
    let fd0 := if hasKey s1.flight_durations dest then s1.flight_durations
               else s1.flight_durations ++ [(dest, [])]
    let fd1 := match r.flight_duration_secs with
               | some (some d) => updateA fd0 dest (fun ds => ds ++ [d])
               | _ => fd0
    let s2 : ScanState := { s1 with flight_durations := fd1 }
    match r.passengers, r.destination_city, r.origin_city with
    | some (some p), some (some d), some (some o) =>
        if hasKey s2.city_passengers d then
          let cp1 := updateA s2.city_passengers d (fun v => (v.1 + p, v.2))
          if hasKey cp1 o then
            ({ s2 with city_passengers := updateA cp1 o (fun v => (v.1, v.2 + p)) }, false)
          else
            ({ s2 with city_passengers := cp1 }, true)
        else
          (s2, true)
    | _, _, _ =>
        -- unreachable once `is_dirty_record r = false`; Python would raise here too
        (s2, true)

/-- The `for record in records` loop of one file: an abort (exception caught by the
per-file handler) drops the remaining records of that file. -/
def processRecords (s : ScanState) : List FlightRecord → ScanState
  | [] => s
  | r :: rs =>
      let res := processRecord s r
      if res.2 then res.1 else processRecords res.1 rs

/-- What the scan finds at one file path. -/
inductive FileContent where
  | openError
  | parseError
  | parsed (records : List FlightRecord)
deriving DecidableEq, Repr

structure ScanFile where
  name : String
  content : FileContent
deriving DecidableEq, Repr

/-- `file.endswith(".json")`, modelled over the string's character list so that it is
kernel-reducible. -/
def isJsonName (name : String) : Bool :=
  name.data.reverse.take 5 == ".json".data.reverse

/-- The per-file body of the walk loop (src/flight_data.py:104-151): non-`.json` names
are skipped; open failures and `json.JSONDecodeError` are caught and skipped. -/
def processFile (s : ScanState) (f : ScanFile) : ScanState :=
  if isJsonName f.name then
    match f.content with
    | .openError => s
    | .parseError => s
    | .parsed rs => processRecords s rs
  else s

/-- The zero-initialised scan state, with a `{arrived: 0, left: 0}` counter for every
known city (src/flight_data.py:99-102). -/
def initState (cities : List String) : ScanState :=
  { total_records := 0
    dirty_records := 0
    flight_durations := []
    city_passengers := cities.map (fun c => (c, ((0 : Int), (0 : Int)))) }

/-- The whole `os.walk` scan, over the corpus in walk order. -/
def scanCorpus (cities : List String) (corpus : List ScanFile) : ScanState :=
  corpus.foldl processFile (initState cities)

/-- `float(np.mean(durations))`, exactly over `ℚ`: sum divided by length. -/
def np_mean (xs : List Int) : ℚ :=
  ((xs.sum : Int) : ℚ) / (xs.length : ℚ)

/-- `float(np.percentile(durations, q))` with numpy's default "linear" method, exactly
over `ℚ`: sort ascending, take rank `(q/100)·(n−1)` and interpolate linearly between the
floor and ceil ranks. (numpy raises on empty input; all call sites guard `len > 0`.) -/
def np_percentile (xs : List Int) (q : ℚ) : ℚ :=
  let s := xs.insertionSort (· ≤ ·)
  let n := s.length
  let rank : ℚ := (q / 100) * ((n : ℚ) - 1)
  let i : Nat := (⌊rank⌋).toNat
  let lo : ℚ := ((s.getD i 0 : Int) : ℚ)
  let hi : ℚ := ((s.getD (i + 1) (s.getD i 0) : Int) : ℚ)
  lo + (rank - (i : ℚ)) * (hi - lo)

structure DurationStat where
  avg : ℚ
  p95 : ℚ
deriving DecidableEq, Repr

/-- The `{"avg": ..., "p95": ...}` entry built for one destination. -/
def mkStat (ds : List Int) : DurationStat :=
  { avg := np_mean ds, p95 := np_percentile ds 95 }

/-- Number of samples recorded for key `k`, i.e. `len(flight_durations[k])`
(the sort key of `_calculate_duration_stats`). -/
def sampleCount [DecidableEq κ] (fd : List (κ × List Int)) (k : κ) : Nat :=
  ((lookupA fd k).getD []).length

/-- `FlightDataProcessor._calculate_duration_stats` (src/flight_data.py:163-177):
the `stats` dictionary built by the `for city, durations in ...` loop with its
`len(durations) > 0` guard (src/flight_data.py:165-171). -/
def durationEntries (fd : List (κ × List Int)) : List (κ × DurationStat) :=
  fd.filterMap (fun p =>
    if p.2.length > 0 then some (p.1, mkStat p.2) else none)

/-- `FlightDataProcessor._calculate_duration_stats` (src/flight_data.py:163-177):
keep destinations with at least one sample, stable-sort by sample count descending
(Python `sorted(..., reverse=True)` is stable, modelled by a stable insertion sort)
and take the first 25. -/
def calculate_duration_stats [DecidableEq κ] (fd : List (κ × List Int)) :
    List (κ × DurationStat) :=
  ((durationEntries fd).insertionSort (fun a b =>
    sampleCount fd b.1 ≤ sampleCount fd a.1)).take 25

structure CityCount where
  city : String
  passengers : Int
deriving DecidableEq, Repr

structure PassengerStats where
  max_arrived : CityCount
  max_left : CityCount
deriving DecidableEq, Repr

/-- Python `max(items, key=...)`: the first element attaining the maximal key
(`>` comparison against the running best). `none` on an empty list, where Python
raises `ValueError`. -/
def pyMax (key : α → Int) : List α → Option α
  | [] => none
  | x :: xs => some (xs.foldl (fun best y => if key y > key best then y else best) x)

/-- `FlightDataProcessor._calculate_passenger_stats` (src/flight_data.py:179-192). -/
def calculate_passenger_stats (cp : List (String × Int × Int)) : Option PassengerStats :=
  match pyMax (fun x => x.2.1) cp, pyMax (fun x => x.2.2) cp with
  | some ma, some ml =>
      some { max_arrived := { city := ma.1, passengers := ma.2.1 }
             max_left := { city := ml.1, passengers := ml.2.2 } }
  | _, _ => none

/-- The `stats` dictionary assembled by `analyze_data` (src/flight_data.py:153-158). -/
structure Stats where
  total_records : Nat
  dirty_records : Nat
  duration_stats : List (Option String × DurationStat)
  passenger_stats : Option PassengerStats
deriving DecidableEq, Repr

/-- `FlightDataProcessor.analyze_data`, minus wall-clock timing: scan the corpus, then
reduce both aggregators. -/
def analyze_data (cities : List String) (corpus : List ScanFile) : Stats :=
  let s := scanCorpus cities corpus
  { total_records := s.total_records
    dirty_records := s.dirty_records
    duration_stats := calculate_duration_stats s.flight_durations
    passenger_stats := calculate_passenger_stats s.city_passengers }

/-! ## Derived notions used to state the claims -/

/-- The destination-city value of a record (meaningful for clean records, where the
field is always `some (some _)`). -/
def destS (r : FlightRecord) : String :=
  (recGet r.destination_city).getD ""

/-- The origin-city value of a record (meaningful for clean records). -/
def originS (r : FlightRecord) : String :=
  (recGet r.origin_city).getD ""

/-- The passengers value of a record (meaningful for clean records). -/
def paxV (r : FlightRecord) : Int :=
  (recGet r.passengers).getD 0

/-- A record is safe for the configured city universe: if it is clean, both its cities
are known. Exactly the condition under which `city_passengers[...]` cannot raise. -/
def citySafe (cities : List String) (r : FlightRecord) : Prop :=
  is_dirty_record r = false → destS r ∈ cities ∧ originS r ∈ cities

instance (cities : List String) (r : FlightRecord) : Decidable (citySafe cities r) := by
  unfold citySafe
  infer_instance

/-- All records contained in the parsed `.json` files of the corpus, in scan order. -/
def parsedRecords (f : ScanFile) : List FlightRecord :=
  if isJsonName f.name then
    match f.content with
    | .parsed rs => rs
    | _ => []
  else []

def corpusRecords (corpus : List ScanFile) : List FlightRecord :=
  corpus.flatMap parsedRecords

/-- Sum of passengers over the clean records of `rs` whose destination is `c`
(the expected `arrived` total). -/
def arrSum (c : String) (rs : List FlightRecord) : Int :=
  ((rs.filter (fun r => !is_dirty_record r && decide (destS r = c))).map paxV).sum

/-- Sum of passengers over the clean records of `rs` whose origin is `c`
(the expected `departed` total). -/
def depSum (c : String) (rs : List FlightRecord) : Int :=
  ((rs.filter (fun r => !is_dirty_record r && decide (originS r = c))).map paxV).sum

/-- Number of records of one file's record list that complete aggregation (are routed to
both aggregators): clean records processed before any abort. -/
def routedRecords (s : ScanState) : List FlightRecord → Nat
  | [] => 0
  | r :: rs =>
      let res := processRecord s r
      if res.2 then 0
      else (if is_dirty_record r then 0 else 1) + routedRecords res.1 rs

def routedFile (s : ScanState) (f : ScanFile) : Nat :=
  if isJsonName f.name then
    match f.content with
    | .parsed rs => routedRecords s rs
    | _ => 0
  else 0

def routedCorpusAux (s : ScanState) : List ScanFile → Nat
  | [] => 0
  | f :: fs => routedFile s f + routedCorpusAux (processFile s f) fs

/-- Number of records of the whole scan that are routed to both aggregators. -/
def routedCorpus (cities : List String) (corpus : List ScanFile) : Nat :=
  routedCorpusAux (initState cities) corpus

/-- Sum of the array lengths of all successfully parsed `.json` files. -/
def sumLens (corpus : List ScanFile) : Nat :=
  (corpus.map (fun f => (parsedRecords f).length)).sum

/-! ## Association-list lemmas -/

theorem lookupA_updateA_self [DecidableEq κ] (l : List (κ × β)) (k : κ) (f : β → β) :
    lookupA (updateA l k f) k = (lookupA l k).map f := by
  induction l with
  | nil => rfl
  | cons p rest ih =>
      obtain ⟨a, b⟩ := p
      by_cases h : k = a
      · subst h; simp [updateA, lookupA]
      · simp [updateA, lookupA, h, ih]

theorem lookupA_updateA_ne [DecidableEq κ] (l : List (κ × β)) {k c : κ} (f : β → β)
    (h : c ≠ k) : lookupA (updateA l k f) c = lookupA l c := by
  induction l with
  | nil => rfl
  | cons p rest ih =>
      obtain ⟨a, b⟩ := p
      by_cases hk : k = a
      · subst hk; simp [updateA, lookupA, h]
      · by_cases hc : c = a
        · subst hc; simp [updateA, lookupA, hk]
        · simp [updateA, lookupA, hk, hc, ih]

theorem hasKey_updateA [DecidableEq κ] (l : List (κ × β)) (k c : κ) (f : β → β) :
    hasKey (updateA l k f) c = hasKey l c := by
  by_cases h : c = k
  · subst h; simp [hasKey, lookupA_updateA_self]
  · simp [hasKey, lookupA_updateA_ne l f h]

theorem lookupA_initCities (cities : List String) (c : String) :
    lookupA ((initState cities).city_passengers) c =
      if c ∈ cities then some ((0 : Int), (0 : Int)) else none := by
  show lookupA (cities.map fun x => (x, ((0 : Int), (0 : Int)))) c = _
  induction cities with
  | nil => simp [lookupA]
  | cons a rest ih =>
      by_cases h : c = a
      · subst h; simp [lookupA]
      · have hm : (c ∈ a :: rest) = (c ∈ rest) := by simp [List.mem_cons, h]
        simp only [List.map_cons, lookupA, if_neg h, hm, ih]

theorem hasKey_initCities (cities : List String) (c : String) :
    hasKey (initState cities).city_passengers c = decide (c ∈ cities) := by
  by_cases h : c ∈ cities <;> simp [hasKey, lookupA_initCities, h]

/-! ## Per-record characterization of `processRecord` -/

/-- A record that passes the general dirtiness check has non-null `passengers`, so the
explicit passengers re-check (src/flight_data.py:124) can never fire. -/
theorem passengers_ok_of_clean {r : FlightRecord} (h : is_dirty_record r = false) :
    missingOrNull r.passengers = false := by
  unfold is_dirty_record at h
  simp only [Bool.or_eq_false_iff] at h
  exact h.2

theorem clean_fields {r : FlightRecord} (h : is_dirty_record r = false) :
    r.origin_city = some (some (originS r)) ∧
    r.destination_city = some (some (destS r)) ∧
    r.passengers = some (some (paxV r)) := by
  unfold is_dirty_record at h
  simp only [Bool.or_eq_false_iff] at h
  obtain ⟨⟨⟨ho, hd⟩, _⟩, hp⟩ := h
  refine ⟨?_, ?_, ?_⟩
  · cases hx : r.origin_city with
    | none => rw [hx] at ho; simp [missingOrNull] at ho
    | some v =>
        cases v with
        | none => rw [hx] at ho; simp [missingOrNull] at ho
        | some a => simp [originS, hx, recGet]
  · cases hx : r.destination_city with
    | none => rw [hx] at hd; simp [missingOrNull] at hd
    | some v =>
        cases v with
        | none => rw [hx] at hd; simp [missingOrNull] at hd
        | some a => simp [destS, hx, recGet]
  · cases hx : r.passengers with
    | none => rw [hx] at hp; simp [missingOrNull] at hp
    | some v =>
        cases v with
        | none => rw [hx] at hp; simp [missingOrNull] at hp
        | some a => simp [paxV, hx, recGet]

theorem processRecord_dirty {r : FlightRecord} (s : ScanState)
    (h : is_dirty_record r = true) :
    processRecord s r =
      ({ s with total_records := s.total_records + 1,
                dirty_records := s.dirty_records + 1 }, false) := by
  simp [processRecord, h]

theorem processRecord_clean_ok {r : FlightRecord} (s : ScanState)
    (h : is_dirty_record r = false)
    (hd : hasKey s.city_passengers (destS r) = true)
    (ho : hasKey s.city_passengers (originS r) = true) :
    (processRecord s r).2 = false ∧
    (processRecord s r).1.total_records = s.total_records + 1 ∧
    (processRecord s r).1.dirty_records = s.dirty_records ∧
    (processRecord s r).1.city_passengers =
      updateA (updateA s.city_passengers (destS r) (fun v => (v.1 + paxV r, v.2)))
        (originS r) (fun v => (v.1, v.2 + paxV r)) := by
  obtain ⟨ho2, hd2, hp2⟩ := clean_fields h
  have hp := passengers_ok_of_clean h
  have hk1 : hasKey
      (updateA s.city_passengers (destS r) (fun v => (v.1 + paxV r, v.2)))
      (originS r) = true := by
    rw [hasKey_updateA]; exact ho
  simp only [processRecord, h, hp, ho2, hd2, hp2, Bool.false_eq_true, if_false, hd,
    if_true, hk1]
  exact ⟨rfl, rfl, rfl, rfl⟩

theorem processRecord_clean_abort {r : FlightRecord} (s : ScanState)
    (h : is_dirty_record r = false)
    (hk : hasKey s.city_passengers (destS r) = false ∨
          hasKey s.city_passengers (originS r) = false) :
    (processRecord s r).2 = true ∧
    (processRecord s r).1.total_records = s.total_records + 1 ∧
    (processRecord s r).1.dirty_records = s.dirty_records := by
  obtain ⟨ho2, hd2, hp2⟩ := clean_fields h
  have hp := passengers_ok_of_clean h
  by_cases hd : hasKey s.city_passengers (destS r) = true
  · have ho : hasKey s.city_passengers (originS r) = false := by
      rcases hk with hk | hk
      · rw [hd] at hk; cases hk
      · exact hk
    have hk1 : hasKey
        (updateA s.city_passengers (destS r) (fun v => (v.1 + paxV r, v.2)))
        (originS r) = false := by
      rw [hasKey_updateA]; exact ho
    simp only [processRecord, h, hp, ho2, hd2, hp2, Bool.false_eq_true, if_false,
      hd, if_true, hk1]
    exact ⟨rfl, rfl, rfl⟩
  · simp only [Bool.not_eq_true] at hd
    simp only [processRecord, h, hp, ho2, hd2, hp2, Bool.false_eq_true, if_false, hd]
    exact ⟨rfl, rfl, rfl⟩

theorem processRecord_hasKey (s : ScanState) (r : FlightRecord) (c : String) :
    hasKey (processRecord s r).1.city_passengers c = hasKey s.city_passengers c := by
  by_cases h : is_dirty_record r = true
  · rw [processRecord_dirty s h]
  · simp only [Bool.not_eq_true] at h
    obtain ⟨ho2, hd2, hp2⟩ := clean_fields h
    have hp := passengers_ok_of_clean h
    by_cases hd : hasKey s.city_passengers (destS r) = true
    · by_cases ho : hasKey s.city_passengers (originS r) = true
      · rw [(processRecord_clean_ok s h hd ho).2.2.2, hasKey_updateA, hasKey_updateA]
      · simp only [Bool.not_eq_true] at ho
        have hk1 : hasKey
            (updateA s.city_passengers (destS r) (fun v => (v.1 + paxV r, v.2)))
            (originS r) = false := by
          rw [hasKey_updateA]; exact ho
        simp only [processRecord, h, hp, ho2, hd2, hp2, missingOrNull,
          Bool.false_eq_true, if_false, hd, if_true, hk1]
        rw [hasKey_updateA]
    · simp only [Bool.not_eq_true] at hd
      simp only [processRecord, h, hp, ho2, hd2, hp2, missingOrNull,
        Bool.false_eq_true, if_false, hd]

theorem processRecord_total_dirty (s : ScanState) (r : FlightRecord) :
    (processRecord s r).1.total_records = s.total_records + 1 ∧
    (processRecord s r).1.dirty_records =
      s.dirty_records + (if is_dirty_record r then 1 else 0) := by
  by_cases h : is_dirty_record r = true
  · rw [processRecord_dirty s h]; simp [h]
  · simp only [Bool.not_eq_true] at h
    obtain ⟨ho2, hd2, hp2⟩ := clean_fields h
    have hp := passengers_ok_of_clean h
    simp only [h, Bool.false_eq_true, if_false, Nat.add_zero]
    by_cases hd : hasKey s.city_passengers (destS r) = true
    · by_cases ho : hasKey s.city_passengers (originS r) = true
      · obtain ⟨-, ht, hdr, -⟩ := processRecord_clean_ok s h hd ho
        exact ⟨ht, hdr⟩
      · simp only [Bool.not_eq_true] at ho
        obtain ⟨-, ht, hdr⟩ := processRecord_clean_abort s h (Or.inr ho)
        exact ⟨ht, hdr⟩
    · simp only [Bool.not_eq_true] at hd
      obtain ⟨-, ht, hdr⟩ := processRecord_clean_abort s h (Or.inl hd)
      exact ⟨ht, hdr⟩

theorem lookupA_flow_update (cp : List (String × Int × Int)) (d o c : String)
    (p a l : Int) (hc : lookupA cp c = some (a, l)) :
    lookupA (updateA (updateA cp d (fun v => (v.1 + p, v.2))) o
        (fun v => (v.1, v.2 + p))) c =
      some (a + (if d = c then p else 0), l + (if o = c then p else 0)) := by
  rcases eq_or_ne c o with hco | hco
  · subst hco
    rw [lookupA_updateA_self]
    rcases eq_or_ne c d with hcd | hcd
    · subst hcd
      rw [lookupA_updateA_self, hc]
      simp
    · rw [lookupA_updateA_ne _ _ hcd, hc]
      simp [hcd.symm]
  · rw [lookupA_updateA_ne _ _ hco]
    rcases eq_or_ne c d with hcd | hcd
    · subst hcd
      rw [lookupA_updateA_self, hc]
      simp [hco.symm]
    · rw [lookupA_updateA_ne _ _ hcd, hc]
      simp [hcd.symm, hco.symm]

theorem processRecord_flow {r : FlightRecord} (s : ScanState)
    (h : is_dirty_record r = false)
    (hd : hasKey s.city_passengers (destS r) = true)
    (ho : hasKey s.city_passengers (originS r) = true)
    (c : String) (a l : Int)
    (hc : lookupA s.city_passengers c = some (a, l)) :
    lookupA (processRecord s r).1.city_passengers c =
      some (a + (if destS r = c then paxV r else 0),
            l + (if originS r = c then paxV r else 0)) := by
  rw [(processRecord_clean_ok s h hd ho).2.2.2]
  exact lookupA_flow_update s.city_passengers (destS r) (originS r) c (paxV r) a l hc

theorem arrSum_cons (c : String) (r : FlightRecord) (rs : List FlightRecord) :
    arrSum c (r :: rs) =
      (if is_dirty_record r = false ∧ destS r = c then paxV r else 0) + arrSum c rs := by
  by_cases h1 : is_dirty_record r = false
  · by_cases h2 : destS r = c
    · simp [arrSum, List.filter_cons, h1, h2]
    · simp [arrSum, List.filter_cons, h1, h2]
  · simp only [Bool.not_eq_false] at h1
    simp [arrSum, List.filter_cons, h1]

theorem depSum_cons (c : String) (r : FlightRecord) (rs : List FlightRecord) :
    depSum c (r :: rs) =
      (if is_dirty_record r = false ∧ originS r = c then paxV r else 0) + depSum c rs := by
  by_cases h1 : is_dirty_record r = false
  · by_cases h2 : originS r = c
    · simp [depSum, List.filter_cons, h1, h2]
    · simp [depSum, List.filter_cons, h1, h2]
  · simp only [Bool.not_eq_false] at h1
    simp [depSum, List.filter_cons, h1]

/-- Master induction for one file's record loop, under the assumption that every clean
record references only cities already present in the flow-counter mapping (so the
`KeyError` path is never taken): keys are preserved, totals advance by the record
count, dirty by the dirty count, every clean record is routed, and each city's flow
counters advance by the per-city passenger sums. -/
theorem processRecords_master :
    ∀ (rs : List FlightRecord) (s : ScanState),
      (∀ r ∈ rs, is_dirty_record r = false →
        hasKey s.city_passengers (destS r) = true ∧
        hasKey s.city_passengers (originS r) = true) →
      (∀ c, hasKey (processRecords s rs).city_passengers c = hasKey s.city_passengers c) ∧
      (processRecords s rs).total_records = s.total_records + rs.length ∧
      (processRecords s rs).dirty_records =
        s.dirty_records + (rs.filter (fun r => is_dirty_record r)).length ∧
      routedRecords s rs = (rs.filter (fun r => !is_dirty_record r)).length ∧
      (∀ c a l, lookupA s.city_passengers c = some (a, l) →
        lookupA (processRecords s rs).city_passengers c =
          some (a + arrSum c rs, l + depSum c rs)) := by
  intro rs
  induction rs with
  | nil =>
      intro s _
      refine ⟨fun c => rfl, rfl, rfl, rfl, ?_⟩
      intro c a l hc
      simpa [processRecords, arrSum, depSum] using hc
  | cons r rs ih =>
      intro s hsafe
      by_cases h : is_dirty_record r = true
      · -- dirty record: state advances trivially, no abort
        have heq := processRecord_dirty s h
        have hstep : processRecords s (r :: rs) =
            processRecords (processRecord s r).1 rs := by
          simp [processRecords, heq]
        set s1 := (processRecord s r).1 with hs1
        have hcp : s1.city_passengers = s.city_passengers := by rw [hs1, heq]
        have htot : s1.total_records = s.total_records + 1 := by rw [hs1, heq]
        have hdr : s1.dirty_records = s.dirty_records + 1 := by rw [hs1, heq]
        obtain ⟨ik, it, id2, ir, ifl⟩ := ih s1 (by
          intro x hx hcx
          rw [hcp]
          exact hsafe x (List.mem_cons_of_mem _ hx) hcx)
        refine ⟨?_, ?_, ?_, ?_, ?_⟩
        · intro c; rw [hstep, ik c, hcp]
        · rw [hstep, it, htot, List.length_cons]; omega
        · rw [hstep, id2, hdr, List.filter_cons]
          simp only [h, if_true]
          simp
          omega
        · have hr : routedRecords s (r :: rs) = routedRecords s1 rs := by
            simp [routedRecords, heq, hs1, h]
          rw [hr, ir, List.filter_cons]
          simp [h]
        · intro c a l hc
          rw [hstep, ifl c a l (by rw [hcp]; exact hc), arrSum_cons, depSum_cons]
          simp [h]
      · simp only [Bool.not_eq_true] at h
        obtain ⟨hd, ho⟩ := hsafe r (List.mem_cons_self r rs) h
        have hok := processRecord_clean_ok s h hd ho
        have hstep : processRecords s (r :: rs) =
            processRecords (processRecord s r).1 rs := by
          simp [processRecords, hok.1]
        set s1 := (processRecord s r).1 with hs1
        have hkeys : ∀ c, hasKey s1.city_passengers c = hasKey s.city_passengers c :=
          fun c => processRecord_hasKey s r c
        obtain ⟨ik, it, id2, ir, ifl⟩ := ih s1 (by
          intro x hx hcx
          rw [hkeys (destS x), hkeys (originS x)]
          exact hsafe x (List.mem_cons_of_mem _ hx) hcx)
        refine ⟨?_, ?_, ?_, ?_, ?_⟩
        · intro c; rw [hstep, ik c, hkeys c]
        · rw [hstep, it, hok.2.1, List.length_cons]; omega
        · rw [hstep, id2, hok.2.2.1, List.filter_cons]
          simp [h]
        · have hr : routedRecords s (r :: rs) = 1 + routedRecords s1 rs := by
            simp [routedRecords, hok.1, hs1, h]
          rw [hr, ir, List.filter_cons]
          simp [h]
          omega
        · intro c a l hc
          have h1 := processRecord_flow s h hd ho c a l hc
          rw [hstep, ifl c _ _ h1, arrSum_cons, depSum_cons]
          simp [h, add_assoc]

theorem arrSum_append (c : String) (xs ys : List FlightRecord) :
    arrSum c (xs ++ ys) = arrSum c xs + arrSum c ys := by
  simp [arrSum, List.filter_append]

theorem depSum_append (c : String) (xs ys : List FlightRecord) :
    depSum c (xs ++ ys) = depSum c xs + depSum c ys := by
  simp [depSum, List.filter_append]

theorem sumLens_cons (f : ScanFile) (fs : List ScanFile) :
    sumLens (f :: fs) = (parsedRecords f).length + sumLens fs := by
  simp [sumLens]

theorem processFile_of_parsed {f : ScanFile} {rs : List FlightRecord}
    (hj : isJsonName f.name = true) (hc : f.content = .parsed rs) (s : ScanState) :
    processFile s f = processRecords s rs ∧ parsedRecords f = rs ∧
    routedFile s f = routedRecords s rs := by
  refine ⟨?_, ?_, ?_⟩ <;> simp [processFile, parsedRecords, routedFile, hj, hc]

theorem processFile_skip {f : ScanFile}
    (hk : isJsonName f.name = false ∨ f.content = .openError ∨ f.content = .parseError)
    (s : ScanState) :
    processFile s f = s ∧ parsedRecords f = [] ∧ routedFile s f = 0 := by
  by_cases hj : isJsonName f.name = true
  · rcases hk with hk | hk | hk
    · rw [hj] at hk; cases hk
    · refine ⟨?_, ?_, ?_⟩ <;> simp [processFile, parsedRecords, routedFile, hj, hk]
    · refine ⟨?_, ?_, ?_⟩ <;> simp [processFile, parsedRecords, routedFile, hj, hk]
  · simp only [Bool.not_eq_true] at hj
    refine ⟨?_, ?_, ?_⟩ <;> simp [processFile, parsedRecords, routedFile, hj]

/-- Master induction for the whole file walk: same five invariants as
`processRecords_master`, accumulated over every parsed `.json` file of the corpus. -/
theorem scan_master :
    ∀ (corpus : List ScanFile) (s : ScanState),
      (∀ r ∈ corpusRecords corpus, is_dirty_record r = false →
        hasKey s.city_passengers (destS r) = true ∧
        hasKey s.city_passengers (originS r) = true) →
      (∀ c, hasKey (corpus.foldl processFile s).city_passengers c =
        hasKey s.city_passengers c) ∧
      (corpus.foldl processFile s).total_records = s.total_records + sumLens corpus ∧
      (corpus.foldl processFile s).dirty_records = s.dirty_records +
        ((corpusRecords corpus).filter (fun r => is_dirty_record r)).length ∧
      routedCorpusAux s corpus =
        ((corpusRecords corpus).filter (fun r => !is_dirty_record r)).length ∧
      (∀ c a l, lookupA s.city_passengers c = some (a, l) →
        lookupA (corpus.foldl processFile s).city_passengers c =
          some (a + arrSum c (corpusRecords corpus),
                l + depSum c (corpusRecords corpus))) := by
  intro corpus
  induction corpus with
  | nil =>
      intro s _
      refine ⟨fun c => rfl, rfl, rfl, rfl, ?_⟩
      intro c a l hc
      simpa [corpusRecords, arrSum, depSum] using hc
  | cons f fs ih =>
      intro s hsafe
      have hcr : corpusRecords (f :: fs) = parsedRecords f ++ corpusRecords fs := by
        simp [corpusRecords]
      have hstep : (f :: fs).foldl processFile s = fs.foldl processFile (processFile s f) :=
        rfl
      have hax : routedCorpusAux s (f :: fs) =
          routedFile s f + routedCorpusAux (processFile s f) fs := rfl
      by_cases hj : isJsonName f.name = true
      · rcases hcontent : f.content with hco | hco | rs
        · -- open error: skipped
          obtain ⟨he, hp, hr⟩ := processFile_skip (Or.inr (Or.inl hcontent)) s
          obtain ⟨ik, it, id2, ir, ifl⟩ := ih s (by
            intro x hx hcx
            exact hsafe x (by rw [hcr, hp]; simpa using hx) hcx)
          refine ⟨?_, ?_, ?_, ?_, ?_⟩
          · intro c; rw [hstep, he, ik c]
          · rw [hstep, he, it, sumLens_cons, hp]
            simp
          · rw [hstep, he, id2, hcr, hp, List.nil_append]
          · rw [hax, hr, he, ir, hcr, hp, List.nil_append, Nat.zero_add]
          · intro c a l hc
            rw [hstep, he, hcr, hp, List.nil_append]
            exact ifl c a l hc
        · -- parse error: skipped
          obtain ⟨he, hp, hr⟩ := processFile_skip (Or.inr (Or.inr hcontent)) s
          obtain ⟨ik, it, id2, ir, ifl⟩ := ih s (by
            intro x hx hcx
            exact hsafe x (by rw [hcr, hp]; simpa using hx) hcx)
          refine ⟨?_, ?_, ?_, ?_, ?_⟩
          · intro c; rw [hstep, he, ik c]
          · rw [hstep, he, it, sumLens_cons, hp]
            simp
          · rw [hstep, he, id2, hcr, hp, List.nil_append]
          · rw [hax, hr, he, ir, hcr, hp, List.nil_append, Nat.zero_add]
          · intro c a l hc
            rw [hstep, he, hcr, hp, List.nil_append]
            exact ifl c a l hc
        · -- parsed .json file: records loop runs
          obtain ⟨he, hp, hr⟩ := processFile_of_parsed hj hcontent s
          have hsafe1 : ∀ r ∈ rs, is_dirty_record r = false →
              hasKey s.city_passengers (destS r) = true ∧
              hasKey s.city_passengers (originS r) = true := by
            intro x hx hcx
            exact hsafe x (by rw [hcr, hp]; exact List.mem_append_left _ hx) hcx
          obtain ⟨rk, rt, rd, rr, rfl2⟩ := processRecords_master rs s hsafe1
          set s1 := processRecords s rs with hs1
          obtain ⟨ik, it, id2, ir, ifl⟩ := ih s1 (by
            intro x hx hcx
            rw [rk (destS x), rk (originS x)]
            exact hsafe x (by rw [hcr]; exact List.mem_append_right _ hx) hcx)
          refine ⟨?_, ?_, ?_, ?_, ?_⟩
          · intro c; rw [hstep, he, ik c, rk c]
          · rw [hstep, he, it, rt, sumLens_cons, hp]
            omega
          · rw [hstep, he, id2, rd, hcr, hp, List.filter_append, List.length_append]
            omega
          · rw [hax, hr, he, ir, rr, hcr, hp, List.filter_append, List.length_append]
          · intro c a l hc
            have h1 := rfl2 c a l hc
            rw [hstep, he, ifl c _ _ h1, hcr, hp, arrSum_append, depSum_append]
            simp [add_assoc]
      · -- non-.json file: skipped
        simp only [Bool.not_eq_true] at hj
        obtain ⟨he, hp, hr⟩ := processFile_skip (Or.inl hj) s
        obtain ⟨ik, it, id2, ir, ifl⟩ := ih s (by
          intro x hx hcx
          exact hsafe x (by rw [hcr, hp]; simpa using hx) hcx)
        refine ⟨?_, ?_, ?_, ?_, ?_⟩
        · intro c; rw [hstep, he, ik c]
        · rw [hstep, he, it, sumLens_cons, hp]
          simp
        · rw [hstep, he, id2, hcr, hp, List.nil_append]
        · rw [hax, hr, he, ir, hcr, hp, List.nil_append, Nat.zero_add]
        · intro c a l hc
          rw [hstep, he, hcr, hp, List.nil_append]
          exact ifl c a l hc

theorem sumLens_eq_length (corpus : List ScanFile) :
    sumLens corpus = (corpusRecords corpus).length := by
  induction corpus with
  | nil => rfl
  | cons f fs ih =>
      rw [sumLens_cons, ih]
      simp [corpusRecords]

/-- Transport of the city-safety hypothesis into `hasKey` form over the initial state. -/
theorem safe_hasKey {cities : List String} {corpus : List ScanFile}
    (hsafe : ∀ r ∈ corpusRecords corpus, citySafe cities r) :
    ∀ r ∈ corpusRecords corpus, is_dirty_record r = false →
      hasKey (initState cities).city_passengers (destS r) = true ∧
      hasKey (initState cities).city_passengers (originS r) = true := by
  intro r hr hc
  obtain ⟨h1, h2⟩ := hsafe r hr hc
  rw [hasKey_initCities, hasKey_initCities]
  exact ⟨by simpa using h1, by simpa using h2⟩

/-! ## Concrete inputs used by counterexamples and witnesses -/

/-- A fully clean record: A → B, 3600 s, 100 passengers. -/
def rCleanAB : FlightRecord :=
  { date := some (some "2024-01-01"), origin_city := some (some "A"),
    destination_city := some (some "B"), flight_duration_secs := some (some 3600),
    passengers := some (some 100) }

/-- A clean record whose destination `Z` is outside the configured city universe. -/
def rBadZ : FlightRecord :=
  { date := some (some "2024-01-01"), origin_city := some (some "A"),
    destination_city := some (some "Z"), flight_duration_secs := some (some 3600),
    passengers := some (some 100) }

/-- A dirty record: `passengers` is present but null. -/
def rDirtyP : FlightRecord :=
  { date := some (some "2024-01-02"), origin_city := some (some "B"),
    destination_city := some (some "A"), flight_duration_secs := some (some 1800),
    passengers := some none }

/-- A clean record with a negative passenger count (JSON integers may be negative). -/
def rNegPax : FlightRecord :=
  { date := some (some "2024-01-03"), origin_city := some (some "A"),
    destination_city := some (some "B"), flight_duration_secs := some (some 1800),
    passengers := some (some (-5)) }

/-! ## C1 -/

/-- C1 (counterexample): the conservation law fails as stated. In the corpus
`[f.json ↦ [rBadZ]]` with city universe `["A"]`, the single record is clean, so
`total_records` becomes 1 and `dirty_records` stays 0, but
`city_passengers["Z"]` raises `KeyError`, so the record is not routed to both
aggregators: `dirty + routed = 0 ≠ 1 = total`. -/
theorem C1_counterexample :
    (scanCorpus ["A"] [⟨"f.json", .parsed [rBadZ]⟩]).dirty_records +
      routedCorpus ["A"] [⟨"f.json", .parsed [rBadZ]⟩] ≠
    (scanCorpus ["A"] [⟨"f.json", .parsed [rBadZ]⟩]).total_records := by
  decide

/-- C1 (amended): provided every clean record of the corpus references only cities of
the configured universe (so the `KeyError` path never fires), `dirty_records` plus the
number of records routed to both aggregators equals `total_records`: each record
increments `total_records` exactly once and is counted dirty exactly once (the
passengers re-check can never fire after the general dirtiness check) or routed. -/
theorem C1_total_split (cities : List String) (corpus : List ScanFile)
    (hsafe : ∀ r ∈ corpusRecords corpus, citySafe cities r) :
    (scanCorpus cities corpus).total_records =
      (scanCorpus cities corpus).dirty_records + routedCorpus cities corpus := by
  obtain ⟨-, ht, hd, hr, -⟩ := scan_master corpus (initState cities) (safe_hasKey hsafe)
  unfold scanCorpus routedCorpus
  rw [ht, hd, hr, sumLens_eq_length]
  have hsplit := List.length_eq_length_filter_add
    (l := corpusRecords corpus) (fun r => is_dirty_record r)
  simp only [initState]
  omega

/-- Witness for `C1_total_split` at a concrete corpus (one clean, one dirty record,
one malformed file). -/
theorem C1_total_split_witness :
    (scanCorpus ["A", "B"]
        [⟨"f.json", .parsed [rCleanAB, rDirtyP]⟩, ⟨"g.json", .parseError⟩]).total_records =
      (scanCorpus ["A", "B"]
        [⟨"f.json", .parsed [rCleanAB, rDirtyP]⟩, ⟨"g.json", .parseError⟩]).dirty_records +
      routedCorpus ["A", "B"]
        [⟨"f.json", .parsed [rCleanAB, rDirtyP]⟩, ⟨"g.json", .parseError⟩] :=
  C1_total_split ["A", "B"]
    [⟨"f.json", .parsed [rCleanAB, rDirtyP]⟩, ⟨"g.json", .parseError⟩]
    (by decide)

/-! ## C3 -/

/-- C3 (counterexample): `total_records` can differ from the sum of parsed array
lengths. In `[g.json ↦ [rBadZ, rCleanAB]]` with universe `["A", "B"]`, the file parses
successfully with 2 records, but the `KeyError` on `rBadZ`'s unknown destination `Z`
aborts the file's loop: `total_records = 1 ≠ 2`. -/
theorem C3_counterexample :
    (scanCorpus ["A", "B"] [⟨"g.json", .parsed [rBadZ, rCleanAB]⟩]).total_records ≠
      sumLens [⟨"g.json", .parsed [rBadZ, rCleanAB]⟩] := by
  decide

/-- C3 (amended): provided every clean record of the corpus references only known
cities, `total_records` equals the sum of the array lengths of all successfully parsed
`.json` files; files that fail to open or to parse contribute zero. -/
theorem C3_total_records (cities : List String) (corpus : List ScanFile)
    (hsafe : ∀ r ∈ corpusRecords corpus, citySafe cities r) :
    (scanCorpus cities corpus).total_records = sumLens corpus := by
  obtain ⟨-, ht, -, -, -⟩ := scan_master corpus (initState cities) (safe_hasKey hsafe)
  unfold scanCorpus
  rw [ht]
  simp [initState]

/-- Witness for `C3_total_records`: open-error and parse-error files contribute zero,
the parsed file contributes its length. -/
theorem C3_total_records_witness :
    (scanCorpus ["A", "B"]
        [⟨"f.json", .parsed [rCleanAB, rDirtyP]⟩, ⟨"g.json", .openError⟩,
         ⟨"h.json", .parseError⟩]).total_records =
      sumLens [⟨"f.json", .parsed [rCleanAB, rDirtyP]⟩, ⟨"g.json", .openError⟩,
         ⟨"h.json", .parseError⟩] :=
  C3_total_records ["A", "B"]
    [⟨"f.json", .parsed [rCleanAB, rDirtyP]⟩, ⟨"g.json", .openError⟩,
     ⟨"h.json", .parseError⟩]
    (by decide)

/-! ## C9 -/

/-- C9: no file-level error is fatal. A file that fails to open or fails to parse is
skipped and the scan state over the whole corpus is exactly as if the file were absent:
the remaining corpus is analysed and aggregator state from other files is unaffected. -/
theorem C9_error_isolated (cities : List String) (pre post : List ScanFile)
    (f : ScanFile) (hf : f.content = .openError ∨ f.content = .parseError) :
    scanCorpus cities (pre ++ f :: post) = scanCorpus cities (pre ++ post) := by
  unfold scanCorpus
  rw [List.foldl_append, List.foldl_append]
  show List.foldl processFile (processFile (List.foldl processFile _ pre) f) post = _
  rw [(processFile_skip (Or.inr hf) _).1]

/-- Witness for `C9_error_isolated`: dropping a parse-error file between two good files
leaves the scan state unchanged. -/
theorem C9_error_isolated_witness :
    scanCorpus ["A", "B"]
        ([⟨"f.json", .parsed [rCleanAB]⟩] ++ ⟨"bad.json", .parseError⟩ ::
          [⟨"h.json", .parsed [rDirtyP]⟩]) =
      scanCorpus ["A", "B"]
        ([⟨"f.json", .parsed [rCleanAB]⟩] ++ [⟨"h.json", .parsed [rDirtyP]⟩]) :=
  C9_error_isolated ["A", "B"] [⟨"f.json", .parsed [rCleanAB]⟩]
    [⟨"h.json", .parsed [rDirtyP]⟩] ⟨"bad.json", .parseError⟩ (Or.inr rfl)

/-! ## C2 -/

/-- C2: `is_dirty_record r` is true iff at least one of the four required fields
(`origin_city`, `destination_city`, `flight_duration_secs`, `passengers`) is absent
from the mapping or present with value null; the `date` field never affects the
result, and (being a total function over all record shapes) the check raises no
exception for missing keys. -/
theorem C2_is_dirty_iff :
    ∀ (r : FlightRecord),
      (is_dirty_record r = true ↔
        (r.origin_city = none ∨ r.origin_city = some none) ∨
        (r.destination_city = none ∨ r.destination_city = some none) ∨
        (r.flight_duration_secs = none ∨ r.flight_duration_secs = some none) ∨
        (r.passengers = none ∨ r.passengers = some none)) ∧
      (∀ d, is_dirty_record { r with date := d } = is_dirty_record r) := by
  intro r
  constructor
  · have hm : ∀ (α : Type) (x : Option (Option α)),
        missingOrNull x = true ↔ (x = none ∨ x = some none) := by
      intro α x
      match x with
      | none => simp [missingOrNull]
      | some none => simp [missingOrNull]
      | some (some v) => simp [missingOrNull]
    unfold is_dirty_record
    simp only [Bool.or_eq_true, hm]
    tauto
  · intro d; rfl

/-! ## C6 -/

theorem arrSum_eq_zero {c : String} {rs : List FlightRecord}
    (h : ∀ r ∈ rs, is_dirty_record r = false → destS r ≠ c) : arrSum c rs = 0 := by
  unfold arrSum
  have hnil : rs.filter (fun r => !is_dirty_record r && decide (destS r = c)) = [] := by
    rw [List.filter_eq_nil_iff]
    intro r hr
    simp only [Bool.and_eq_true, Bool.not_eq_true', decide_eq_true_eq, not_and]
    intro hcl
    exact h r hr hcl
  rw [hnil]
  rfl

theorem depSum_eq_zero {c : String} {rs : List FlightRecord}
    (h : ∀ r ∈ rs, is_dirty_record r = false → originS r ≠ c) : depSum c rs = 0 := by
  unfold depSum
  have hnil : rs.filter (fun r => !is_dirty_record r && decide (originS r = c)) = [] := by
    rw [List.filter_eq_nil_iff]
    intro r hr
    simp only [Bool.and_eq_true, Bool.not_eq_true', decide_eq_true_eq, not_and]
    intro hcl
    exact h r hr hcl
  rw [hnil]
  rfl

/-- C6 (counterexample): the origin-only property fails as stated. With universe
`["A"]` and the single clean record `rBadZ` (A → Z, 100 passengers), city `A` appears
only as `origin_city` among clean records and the claimed departed total is `100`, but
the `KeyError` on the unknown destination `Z` fires before the origin's `left` update,
so `A` ends with `departed = 0`. -/
theorem C6_counterexample :
    (∀ r ∈ corpusRecords [⟨"f.json", .parsed [rBadZ]⟩],
      is_dirty_record r = false → originS r = "A" ∧ destS r ≠ "A") ∧
    depSum "A" (corpusRecords [⟨"f.json", .parsed [rBadZ]⟩]) = 100 ∧
    lookupA (scanCorpus ["A"]
        [⟨"f.json", .parsed [rBadZ]⟩]).city_passengers "A" = some (0, 0) ∧
    (0 : Int) ≠ 100 :=
  ⟨by decide, by decide, by decide, by decide⟩

/-- C6 (amended): every known city starts with a `{arrived: 0, departed: 0}` counter
before any record is processed; provided every clean record of the corpus references
only cities of the configured universe (so no `KeyError` cuts an update short), a city
that never appears as a destination of a clean record ends with `arrived = 0` and
`departed` equal to the sum of the passengers of the clean records that name it as
origin; and a city with no appearances in any clean record keeps `(0, 0)`. -/
theorem C6_city_flow (cities : List String) (corpus : List ScanFile) (c : String)
    (hsafe : ∀ r ∈ corpusRecords corpus, citySafe cities r)
    (hc : c ∈ cities) :
    lookupA (initState cities).city_passengers c = some (0, 0) ∧
    ((∀ r ∈ corpusRecords corpus, is_dirty_record r = false → destS r ≠ c) →
      lookupA (scanCorpus cities corpus).city_passengers c =
        some (0, depSum c (corpusRecords corpus))) ∧
    ((∀ r ∈ corpusRecords corpus, is_dirty_record r = false →
        destS r ≠ c ∧ originS r ≠ c) →
      lookupA (scanCorpus cities corpus).city_passengers c = some (0, 0)) := by
  have hinit : lookupA (initState cities).city_passengers c = some (0, 0) := by
    rw [lookupA_initCities]
    simp [hc]
  obtain ⟨-, -, -, -, hflow⟩ := scan_master corpus (initState cities) (safe_hasKey hsafe)
  refine ⟨hinit, ?_, ?_⟩
  · intro hno
    have hres := hflow c 0 0 hinit
    rw [arrSum_eq_zero hno] at hres
    unfold scanCorpus
    simpa using hres
  · intro hno
    have hres := hflow c 0 0 hinit
    rw [arrSum_eq_zero (fun r hr hcl => (hno r hr hcl).1),
        depSum_eq_zero (fun r hr hcl => (hno r hr hcl).2)] at hres
    unfold scanCorpus
    simpa using hres

/-- Witness for `C6_city_flow`: in a scan of one clean A→B record over universe
`["A","B","C"]`, city `A` (origin only) ends with `arrived = 0` and `departed` equal to
the passenger sum of its origin records, and city `C` (no appearances) keeps `(0,0)`. -/
theorem C6_city_flow_witness :
    lookupA (scanCorpus ["A", "B", "C"]
        [⟨"f.json", .parsed [rCleanAB]⟩]).city_passengers "A" =
      some (0, depSum "A" (corpusRecords [⟨"f.json", .parsed [rCleanAB]⟩])) ∧
    lookupA (scanCorpus ["A", "B", "C"]
        [⟨"f.json", .parsed [rCleanAB]⟩]).city_passengers "C" = some (0, 0) :=
  ⟨(C6_city_flow ["A", "B", "C"] [⟨"f.json", .parsed [rCleanAB]⟩] "A"
      (by decide) (by decide)).2.1 (by decide),
   (C6_city_flow ["A", "B", "C"] [⟨"f.json", .parsed [rCleanAB]⟩] "C"
      (by decide) (by decide)).2.2 (by decide)⟩

/-! ## C7 -/

theorem lookupA_arr_update (cp : List (String × Int × Int)) (d c : String)
    (p a l : Int) (hc : lookupA cp c = some (a, l)) :
    lookupA (updateA cp d (fun v => (v.1 + p, v.2))) c =
      some (a + (if d = c then p else 0), l) := by
  rcases eq_or_ne c d with hcd | hcd
  · subst hcd
    rw [lookupA_updateA_self, hc]
    simp
  · rw [lookupA_updateA_ne _ _ hcd, hc]
    simp [hcd.symm]

theorem processRecord_cp_abort_dest {r : FlightRecord} (s : ScanState)
    (h : is_dirty_record r = false)
    (hd : hasKey s.city_passengers (destS r) = false) :
    (processRecord s r).1.city_passengers = s.city_passengers := by
  obtain ⟨ho2, hd2, hp2⟩ := clean_fields h
  have hp := passengers_ok_of_clean h
  simp only [processRecord, h, hp, ho2, hd2, hp2, missingOrNull, Bool.false_eq_true,
    if_false, hd]

theorem processRecord_cp_abort_origin {r : FlightRecord} (s : ScanState)
    (h : is_dirty_record r = false)
    (hd : hasKey s.city_passengers (destS r) = true)
    (ho : hasKey s.city_passengers (originS r) = false) :
    (processRecord s r).1.city_passengers =
      updateA s.city_passengers (destS r) (fun v => (v.1 + paxV r, v.2)) := by
  obtain ⟨ho2, hd2, hp2⟩ := clean_fields h
  have hp := passengers_ok_of_clean h
  have hk1 : hasKey
      (updateA s.city_passengers (destS r) (fun v => (v.1 + paxV r, v.2)))
      (originS r) = false := by
    rw [hasKey_updateA]; exact ho
  simp only [processRecord, h, hp, ho2, hd2, hp2, missingOrNull, Bool.false_eq_true,
    if_false, hd, if_true, hk1]

theorem arrSum_nonneg {c : String} {rs : List FlightRecord}
    (h : ∀ r ∈ rs, 0 ≤ paxV r) : 0 ≤ arrSum c rs := by
  unfold arrSum
  apply List.sum_nonneg
  intro x hx
  obtain ⟨r, hr, hxr⟩ := List.mem_map.mp hx
  rw [← hxr]
  exact h r (List.mem_filter.mp hr).1

theorem depSum_nonneg {c : String} {rs : List FlightRecord}
    (h : ∀ r ∈ rs, 0 ≤ paxV r) : 0 ≤ depSum c rs := by
  unfold depSum
  apply List.sum_nonneg
  intro x hx
  obtain ⟨r, hr, hxr⟩ := List.mem_map.mp hx
  rw [← hxr]
  exact h r (List.mem_filter.mp hr).1

/-- C7 (counterexample): with a clean record carrying a negative `passengers` value
(JSON integers may be negative), the `departed` counter of city `A` drops from its
initial `0` to `-5`: counters can decrease and go negative. -/
theorem C7_counterexample :
    lookupA (initState ["A", "B"]).city_passengers "A" = some (0, 0) ∧
    lookupA (scanCorpus ["A", "B"]
        [⟨"n.json", .parsed [rNegPax]⟩]).city_passengers "A" = some (0, -5) ∧
    ¬ ((0 : Int) ≤ -5) :=
  ⟨by decide, by decide, by decide⟩

/-- One record step is pointwise monotone on every city's `(arrived, departed)` pair,
provided the record, if clean, carries a non-negative passenger count (dirty records
touch no counter); this covers the partially-updated states left by the `KeyError`
path. -/
theorem processRecord_mono (s : ScanState) (r : FlightRecord) (c : String)
    (a l : Int) (hp : is_dirty_record r = false → 0 ≤ paxV r)
    (hc : lookupA s.city_passengers c = some (a, l)) :
    ∃ a2 l2, lookupA (processRecord s r).1.city_passengers c = some (a2, l2) ∧
      a ≤ a2 ∧ l ≤ l2 := by
  by_cases h : is_dirty_record r = true
  · rw [processRecord_dirty s h]
    exact ⟨a, l, hc, le_refl a, le_refl l⟩
  · simp only [Bool.not_eq_true] at h
    have hp2 := hp h
    by_cases hd : hasKey s.city_passengers (destS r) = true
    · by_cases ho : hasKey s.city_passengers (originS r) = true
      · refine ⟨_, _, processRecord_flow s h hd ho c a l hc, ?_, ?_⟩ <;>
          split <;> omega
      · simp only [Bool.not_eq_true] at ho
        rw [processRecord_cp_abort_origin s h hd ho]
        refine ⟨_, _, lookupA_arr_update s.city_passengers (destS r) c (paxV r) a l hc,
          ?_, le_refl l⟩
        split <;> omega
    · simp only [Bool.not_eq_true] at hd
      rw [processRecord_cp_abort_dest s h hd]
      exact ⟨a, l, hc, le_refl a, le_refl l⟩

theorem processRecords_mono (rs : List FlightRecord) :
    ∀ (s : ScanState) (c : String) (a l : Int),
      (∀ r ∈ rs, is_dirty_record r = false → 0 ≤ paxV r) →
      lookupA s.city_passengers c = some (a, l) →
      ∃ a2 l2, lookupA (processRecords s rs).city_passengers c = some (a2, l2) ∧
        a ≤ a2 ∧ l ≤ l2 := by
  induction rs with
  | nil =>
      intro s c a l _ hc
      exact ⟨a, l, hc, le_refl a, le_refl l⟩
  | cons r rs ih =>
      intro s c a l hp hc
      obtain ⟨a1, l1, hc1, ha1, hl1⟩ :=
        processRecord_mono s r c a l (hp r (List.mem_cons_self r rs)) hc
      simp only [processRecords]
      by_cases h2 : (processRecord s r).2 = true
      · simp only [h2, if_true]
        exact ⟨a1, l1, hc1, ha1, hl1⟩
      · simp only [Bool.not_eq_true] at h2
        simp only [h2, Bool.false_eq_true, if_false]
        obtain ⟨a2, l2, hc2, ha2, hl2⟩ := ih (processRecord s r).1 c a1 l1
          (fun x hx => hp x (List.mem_cons_of_mem r hx)) hc1
        exact ⟨a2, l2, hc2, le_trans ha1 ha2, le_trans hl1 hl2⟩

theorem processFile_mono (f : ScanFile) (s : ScanState) (c : String) (a l : Int)
    (hp : ∀ r ∈ parsedRecords f, is_dirty_record r = false → 0 ≤ paxV r)
    (hc : lookupA s.city_passengers c = some (a, l)) :
    ∃ a2 l2, lookupA (processFile s f).city_passengers c = some (a2, l2) ∧
      a ≤ a2 ∧ l ≤ l2 := by
  by_cases hj : isJsonName f.name = true
  · rcases hcontent : f.content with hco | hco | rs
    · rw [(processFile_skip (Or.inr (Or.inl hcontent)) s).1]
      exact ⟨a, l, hc, le_refl a, le_refl l⟩
    · rw [(processFile_skip (Or.inr (Or.inr hcontent)) s).1]
      exact ⟨a, l, hc, le_refl a, le_refl l⟩
    · obtain ⟨he, hpr, -⟩ := processFile_of_parsed hj hcontent s
      rw [he]
      exact processRecords_mono rs s c a l (by rw [← hpr]; exact hp) hc
  · simp only [Bool.not_eq_true] at hj
    rw [(processFile_skip (Or.inl hj) s).1]
    exact ⟨a, l, hc, le_refl a, le_refl l⟩

theorem scanFold_mono (corpus : List ScanFile) :
    ∀ (s : ScanState) (c : String) (a l : Int),
      (∀ r ∈ corpusRecords corpus, is_dirty_record r = false → 0 ≤ paxV r) →
      lookupA s.city_passengers c = some (a, l) →
      ∃ a2 l2, lookupA ((corpus.foldl processFile s)).city_passengers c =
        some (a2, l2) ∧ a ≤ a2 ∧ l ≤ l2 := by
  induction corpus with
  | nil =>
      intro s c a l _ hc
      exact ⟨a, l, hc, le_refl a, le_refl l⟩
  | cons f fs ih =>
      intro s c a l hp hc
      have hcr : corpusRecords (f :: fs) = parsedRecords f ++ corpusRecords fs := by
        simp [corpusRecords]
      obtain ⟨a1, l1, hc1, ha1, hl1⟩ := processFile_mono f s c a l
        (fun r hr => hp r (by rw [hcr]; exact List.mem_append_left _ hr)) hc
      obtain ⟨a2, l2, hc2, ha2, hl2⟩ := ih (processFile s f) c a1 l1
        (fun r hr => hp r (by rw [hcr]; exact List.mem_append_right _ hr)) hc1
      exact ⟨a2, l2, hc2, le_trans ha1 ha2, le_trans hl1 hl2⟩

/-- C7 (amended): provided the passenger values of clean records are non-negative,
the flow counters are monotone and non-negative: processing any one record maps each
city's `(arrived, departed)` pair to a pointwise greater-or-equal pair (including the
partially-updated states left behind by the `KeyError` path), and after a full scan of
any corpus — dirty records and `KeyError`-aborted files included — every known city's
counters are non-negative. -/
theorem C7_flow_monotone :
    (∀ (s : ScanState) (r : FlightRecord) (c : String) (a l : Int),
      (is_dirty_record r = false → 0 ≤ paxV r) →
      lookupA s.city_passengers c = some (a, l) →
      ∃ a2 l2, lookupA (processRecord s r).1.city_passengers c = some (a2, l2) ∧
        a ≤ a2 ∧ l ≤ l2) ∧
    (∀ (cities : List String) (corpus : List ScanFile) (c : String),
      (∀ r ∈ corpusRecords corpus, is_dirty_record r = false → 0 ≤ paxV r) →
      c ∈ cities →
      ∃ a l, lookupA (scanCorpus cities corpus).city_passengers c = some (a, l) ∧
        0 ≤ a ∧ 0 ≤ l) := by
  constructor
  · exact processRecord_mono
  · intro cities corpus c hpax hc
    have hinit : lookupA (initState cities).city_passengers c = some (0, 0) := by
      rw [lookupA_initCities]
      simp [hc]
    obtain ⟨a, l, hlk, ha, hl⟩ :=
      scanFold_mono corpus (initState cities) c 0 0 hpax hinit
    exact ⟨a, l, hlk, ha, hl⟩

/-- Witness for `C7_flow_monotone`: one concrete step and one concrete scan; the scan
corpus contains a dirty record and a clean out-of-universe record (whose `KeyError`
aborts its file), both covered by the amended claim. -/
theorem C7_flow_monotone_witness :
    (∃ a2 l2, lookupA (processRecord (initState ["A", "B"])
        rCleanAB).1.city_passengers "A" = some (a2, l2) ∧
      (0 : Int) ≤ a2 ∧ (0 : Int) ≤ l2) ∧
    (∃ a l, lookupA (scanCorpus ["A", "B"]
        [⟨"f.json", .parsed [rCleanAB, rDirtyP, rBadZ]⟩]).city_passengers "B" =
      some (a, l) ∧ 0 ≤ a ∧ 0 ≤ l) :=
  ⟨C7_flow_monotone.1 (initState ["A", "B"]) rCleanAB "A" 0 0 (by decide) (by decide),
   C7_flow_monotone.2 ["A", "B"] [⟨"f.json", .parsed [rCleanAB, rDirtyP, rBadZ]⟩] "B"
     (by decide) (by decide)⟩


/-! ## C10 -/

theorem processRecords_hasKey (rs : List FlightRecord) :
    ∀ (s : ScanState) (c : String),
      hasKey (processRecords s rs).city_passengers c = hasKey s.city_passengers c := by
  induction rs with
  | nil => intro s c; rfl
  | cons r rs ih =>
      intro s c
      simp only [processRecords]
      by_cases h2 : (processRecord s r).2 = true
      · simp only [h2, if_true]
        exact processRecord_hasKey s r c
      · simp only [Bool.not_eq_true] at h2
        simp only [h2, Bool.false_eq_true, if_false]
        rw [ih (processRecord s r).1 c, processRecord_hasKey]

theorem processFile_hasKey (f : ScanFile) (s : ScanState) (c : String) :
    hasKey (processFile s f).city_passengers c = hasKey s.city_passengers c := by
  unfold processFile
  by_cases hj : isJsonName f.name = true
  · rcases hcontent : f.content with hco | hco | rs <;> simp [hj, hcontent]
    exact processRecords_hasKey rs s c
  · simp only [Bool.not_eq_true] at hj
    simp [hj]

theorem scanCorpus_hasKey (corpus : List ScanFile) :
    ∀ (s : ScanState) (c : String),
      hasKey (corpus.foldl processFile s).city_passengers c =
        hasKey s.city_passengers c := by
  induction corpus with
  | nil => intro s c; rfl
  | cons f fs ih =>
      intro s c
      show hasKey ((fs.foldl processFile (processFile s f)).city_passengers) c = _
      rw [ih (processFile s f) c, processFile_hasKey]

/-- C10: the flow-counter mapping of any scan state holds exactly the configured city
universe, and a parsed file's clean record naming a city outside that mapping raises
`KeyError`: the whole remainder of that file's record list is skipped — the aborting
record has already incremented `total_records`, no `dirty_records` increment happens,
and the resulting state is that of the aborting record alone, independent of the
records after it (they are counted nowhere and reach no aggregator). -/
theorem C10_keyerror_truncates :
    (∀ (cities : List String) (corpus : List ScanFile) (x : String),
      hasKey (scanCorpus cities corpus).city_passengers x = decide (x ∈ cities)) ∧
    (∀ (s : ScanState) (r : FlightRecord) (post : List FlightRecord),
      is_dirty_record r = false →
      (hasKey s.city_passengers (destS r) = false ∨
       hasKey s.city_passengers (originS r) = false) →
      (processRecord s r).2 = true ∧
      processRecords s (r :: post) = (processRecord s r).1 ∧
      (processRecord s r).1.total_records = s.total_records + 1 ∧
      (processRecord s r).1.dirty_records = s.dirty_records) := by
  constructor
  · intro cities corpus x
    unfold scanCorpus
    rw [scanCorpus_hasKey, hasKey_initCities]
  · intro s r post h hk
    obtain ⟨h2, ht, hd⟩ := processRecord_clean_abort s h hk
    refine ⟨h2, ?_, ht, hd⟩
    simp only [processRecords, h2, if_true]

/-- Witness for `C10_keyerror_truncates`: the unknown-destination record `rBadZ` aborts
its file; the following clean record is never processed. -/
theorem C10_keyerror_truncates_witness :
    (processRecord (initState ["A"]) rBadZ).2 = true ∧
    processRecords (initState ["A"]) (rBadZ :: [rCleanAB]) =
      (processRecord (initState ["A"]) rBadZ).1 ∧
    (processRecord (initState ["A"]) rBadZ).1.total_records =
      (initState ["A"]).total_records + 1 ∧
    (processRecord (initState ["A"]) rBadZ).1.dirty_records =
      (initState ["A"]).dirty_records :=
  C10_keyerror_truncates.2 (initState ["A"]) rBadZ [rCleanAB] (by decide) (by decide)

/-! ## C8 -/

/-- Python `max(..., key=...)` returns the first element attaining the maximal key:
the fold keeps the current best on ties (`>` comparison), so the result splits the
list into a strictly-smaller prefix, the chosen element, and a not-larger remainder. -/
theorem pyMax_foldl_spec (key : α → Int) :
    ∀ (xs : List α) (x : α),
      ∃ pre post,
        x :: xs = pre ++
          (List.foldl (fun best y => if key y > key best then y else best) x xs) :: post ∧
        (∀ z ∈ pre,
          key z < key (List.foldl (fun best y => if key y > key best then y else best) x xs)) ∧
        (∀ z ∈ x :: xs,
          key z ≤ key (List.foldl (fun best y => if key y > key best then y else best) x xs)) := by
  intro xs
  induction xs with
  | nil =>
      intro x
      exact ⟨[], [], rfl, by simp, by simp⟩
  | cons y ys ih =>
      intro x
      simp only [List.foldl_cons]
      by_cases hxy : key y > key x
      · rw [if_pos hxy]
        obtain ⟨pre, post, hsplit, hlt, hle⟩ := ih y
        have hym : key y ≤ key (List.foldl
            (fun best y => if key y > key best then y else best) y ys) :=
          hle y (List.mem_cons_self y ys)
        refine ⟨x :: pre, post, ?_, ?_, ?_⟩
        · rw [List.cons_append, ← hsplit]
        · intro z hz
          rcases List.mem_cons.mp hz with hz | hz
          · rw [hz]; exact lt_of_lt_of_le hxy hym
          · exact hlt z hz
        · intro z hz
          rcases List.mem_cons.mp hz with hz | hz
          · rw [hz]; exact le_of_lt (lt_of_lt_of_le hxy hym)
          · exact hle z hz
      · rw [if_neg hxy]
        push_neg at hxy
        obtain ⟨pre, post, hsplit, hlt, hle⟩ := ih x
        have hxm : key x ≤ key (List.foldl
            (fun best y => if key y > key best then y else best) x ys) :=
          hle x (List.mem_cons_self x ys)
        cases pre with
        | nil =>
            simp only [List.nil_append] at hsplit
            refine ⟨[], y :: post, ?_, by simp, ?_⟩
            · rw [List.nil_append]
              rw [List.cons.injEq] at hsplit ⊢
              exact ⟨hsplit.1, by rw [List.cons.injEq]; exact ⟨rfl, hsplit.2⟩⟩
            · intro z hz
              rcases List.mem_cons.mp hz with hz | hz
              · rw [hz]; exact hxm
              · rcases List.mem_cons.mp hz with hz | hz
                · rw [hz]; exact le_trans hxy hxm
                · exact hle z (List.mem_cons_of_mem x hz)
        | cons p pre2 =>
            rw [List.cons_append, List.cons.injEq] at hsplit
            obtain ⟨hxp, hys⟩ := hsplit
            refine ⟨x :: y :: pre2, post, ?_, ?_, ?_⟩
            · rw [List.cons_append, List.cons_append, ← hys]
            · intro z hz
              have hpm : key p < key (List.foldl
                  (fun best y => if key y > key best then y else best) x ys) :=
                hlt p (List.mem_cons_self p pre2)
              have hxp2 : key x = key p := by rw [hxp]
              rcases List.mem_cons.mp hz with hz | hz
              · rw [hz, hxp2]; exact hpm
              · rcases List.mem_cons.mp hz with hz | hz
                · rw [hz]; exact lt_of_le_of_lt (le_trans hxy (le_of_eq hxp2)) hpm
                · exact hlt z (List.mem_cons_of_mem p hz)
            · intro z hz
              rcases List.mem_cons.mp hz with hz | hz
              · rw [hz]; exact hxm
              · rcases List.mem_cons.mp hz with hz | hz
                · rw [hz]; exact le_trans hxy hxm
                · exact hle z (List.mem_cons_of_mem x hz)

/-- C8: `_calculate_passenger_stats` selects for `max_arrived` (resp. `max_left`) the
first city in iteration order whose `arrived` (resp. `departed`) counter is maximal,
returning that city's name with its counter value: the mapping splits into a prefix of
cities with strictly smaller counters, the selected city, and a remainder of cities
with counters not exceeding it. -/
theorem C8_max_selection (cp : List (String × Int × Int)) (st : PassengerStats)
    (h : calculate_passenger_stats cp = some st) :
    (∃ l pre post,
      cp = pre ++ (st.max_arrived.city, (st.max_arrived.passengers, l)) :: post ∧
      (∀ e ∈ pre, e.2.1 < st.max_arrived.passengers) ∧
      (∀ e ∈ cp, e.2.1 ≤ st.max_arrived.passengers)) ∧
    (∃ a pre post,
      cp = pre ++ (st.max_left.city, (a, st.max_left.passengers)) :: post ∧
      (∀ e ∈ pre, e.2.2 < st.max_left.passengers) ∧
      (∀ e ∈ cp, e.2.2 ≤ st.max_left.passengers)) := by
  match cp with
  | [] => cases h
  | x :: xs =>
      simp only [calculate_passenger_stats, pyMax] at h
      rw [Option.some.injEq] at h
      obtain ⟨preA, postA, hsplitA, hltA, hleA⟩ :=
        pyMax_foldl_spec (fun e => e.2.1) xs x
      obtain ⟨preL, postL, hsplitL, hltL, hleL⟩ :=
        pyMax_foldl_spec (fun e => e.2.2) xs x
      constructor
      · refine ⟨(List.foldl (fun best y => if y.2.1 > best.2.1 then y else best) x xs).2.2,
          preA, postA, ?_, ?_, ?_⟩
        · rw [← h]
          simpa using hsplitA
        · intro e he
          rw [← h]
          exact hltA e he
        · intro e he
          rw [← h]
          exact hleA e he
      · refine ⟨(List.foldl (fun best y => if y.2.2 > best.2.2 then y else best) x xs).2.1,
          preL, postL, ?_, ?_, ?_⟩
        · rw [← h]
          simpa using hsplitL
        · intro e he
          rw [← h]
          exact hltL e he
        · intro e he
          rw [← h]
          exact hleL e he

/-- Witness for `C8_max_selection` at the claim's concrete example
`{A: {arrived: 100}, B: {arrived: 50}}`: `max_arrived` is `A` with `100` (and
`max_left`, all departed counters being zero, is the first city `A` with `0`). -/
theorem C8_max_selection_witness :
    (∃ l pre post,
      [("A", ((100 : Int), (0 : Int))), ("B", (50, 0))] =
        pre ++ ("A", ((100 : Int), l)) :: post ∧
      (∀ e ∈ pre, e.2.1 < (100 : Int)) ∧
      (∀ e ∈ [("A", ((100 : Int), (0 : Int))), ("B", (50, 0))], e.2.1 ≤ (100 : Int))) ∧
    (∃ a pre post,
      [("A", ((100 : Int), (0 : Int))), ("B", (50, 0))] =
        pre ++ ("A", (a, (0 : Int))) :: post ∧
      (∀ e ∈ pre, e.2.2 < (0 : Int)) ∧
      (∀ e ∈ [("A", ((100 : Int), (0 : Int))), ("B", (50, 0))], e.2.2 ≤ (0 : Int))) :=
  C8_max_selection [("A", (100, 0)), ("B", (50, 0))] ⟨⟨"A", 100⟩, ⟨"A", 0⟩⟩ (by decide)

/-! ## C4 -/

/-- The arithmetic mean, as the spec words it: the sum of the samples over their
number. -/
def specMean (xs : List Int) : ℚ :=
  ((xs.sum : Int) : ℚ) / (xs.length : ℚ)

/-- The 95th percentile as the spec words it: sort the samples, take rank
`0.95 × (n − 1)` and interpolate linearly between the floor and ceil ranks. -/
def specP95 (xs : List Int) : ℚ :=
  let s := xs.insertionSort (· ≤ ·)
  let rank : ℚ := (0.95 : ℚ) * ((s.length : ℚ) - 1)
  let j : Nat := (⌊rank⌋).toNat
  ((s.getD j 0 : Int) : ℚ) +
    (rank - (j : ℚ)) *
      (((s.getD (j + 1) (s.getD j 0) : Int) : ℚ) - ((s.getD j 0 : Int) : ℚ))

theorem np_percentile_95_eq_spec (xs : List Int) : np_percentile xs 95 = specP95 xs := by
  simp only [np_percentile, specP95]
  norm_num

theorem mem_durationEntries {fd : List (κ × List Int)} {p : κ × DurationStat}
    (hp : p ∈ durationEntries fd) :
    ∃ ds, (p.1, ds) ∈ fd ∧ ds ≠ [] ∧ p.2 = mkStat ds := by
  obtain ⟨q, hq, hqe⟩ := List.mem_filterMap.mp hp
  by_cases h : q.2.length > 0
  · rw [if_pos h, Option.some.injEq] at hqe
    subst hqe
    refine ⟨q.2, ?_, ?_, rfl⟩
    · simpa using hq
    · intro hnil
      rw [hnil] at h
      simp at h
  · rw [if_neg h] at hqe
    cases hqe

theorem mem_duration_stats [DecidableEq κ] {fd : List (κ × List Int)}
    {p : κ × DurationStat} (hp : p ∈ calculate_duration_stats fd) :
    ∃ ds, (p.1, ds) ∈ fd ∧ ds ≠ [] ∧ p.2 = mkStat ds := by
  unfold calculate_duration_stats at hp
  have h1 := (List.take_sublist 25 _).subset hp
  have h2 := (List.mem_insertionSort _).mp h1
  exact mem_durationEntries h2

/-- C4: every entry retained by the duration reduction carries `avg` equal to the
arithmetic mean of that destination's samples and `p95` equal to the linearly
interpolated 95th percentile at rank `0.95 × (n − 1)`; in particular for samples
`[10, 20, ..., 100]` the reduction yields `avg = 55` (the arithmetic mean) and
`p95 = 95.5 = 191/2` (the interpolated value), and a single-sample destination gets
`avg = p95 = that sample`. -/
theorem C4_avg_p95 :
    (∀ (fd : List (String × List Int)) (p : String × DurationStat),
      p ∈ calculate_duration_stats fd →
      ∃ ds, (p.1, ds) ∈ fd ∧ ds ≠ [] ∧ p.2.avg = specMean ds ∧ p.2.p95 = specP95 ds) ∧
    (calculate_duration_stats [("Y", [10, 20, 30, 40, 50, 60, 70, 80, 90, 100])] =
      [("Y", ⟨55, 191 / 2⟩)] ∧
      specMean [10, 20, 30, 40, 50, 60, 70, 80, 90, 100] = 55 ∧
      specP95 [10, 20, 30, 40, 50, 60, 70, 80, 90, 100] = 191 / 2) ∧
    (∀ x : Int,
      calculate_duration_stats [("Y", [x])] = [("Y", ⟨(x : ℚ), (x : ℚ)⟩)]) := by
  have hspec95 : specP95 [10, 20, 30, 40, 50, 60, 70, 80, 90, 100] = 191 / 2 := by
    rw [← np_percentile_95_eq_spec]
    have h8 : (Int.toNat 8) = 8 := rfl
    norm_num [np_percentile, List.insertionSort, List.orderedInsert, h8, List.getD]
  refine ⟨?_, ⟨?_, ?_, hspec95⟩, ?_⟩
  · intro fd p hp
    obtain ⟨ds, hmem, hne, hstat⟩ := mem_duration_stats hp
    refine ⟨ds, hmem, hne, ?_, ?_⟩
    · rw [hstat]
      rfl
    · rw [hstat]
      exact np_percentile_95_eq_spec ds
  · have hred : calculate_duration_stats [("Y", [10, 20, 30, 40, 50, 60, 70, 80, 90, 100])]
        = [("Y", mkStat [10, 20, 30, 40, 50, 60, 70, 80, 90, 100])] := rfl
    rw [hred]
    have hmk : mkStat [10, 20, 30, 40, 50, 60, 70, 80, 90, 100]
        = ⟨(55 : ℚ), 191 / 2⟩ := by
      unfold mkStat
      rw [np_percentile_95_eq_spec, hspec95]
      norm_num [np_mean]
    rw [hmk]
  · norm_num [specMean]
  · intro x
    have hred : calculate_duration_stats [("Y", [x])] = [("Y", mkStat [x])] := rfl
    rw [hred]
    have hm : np_mean [x] = (x : ℚ) := by norm_num [np_mean]
    have hp95 : np_percentile [x] 95 = (x : ℚ) := by
      have h0 : (Int.toNat 0) = 0 := rfl
      norm_num [np_percentile, List.insertionSort, List.orderedInsert, h0, List.getD]
    have hmk : mkStat [x] = ⟨(x : ℚ), (x : ℚ)⟩ := by
      unfold mkStat
      rw [hm, hp95]
    rw [hmk]

/-- Witness for `C4_avg_p95` (its first conjunct has a membership hypothesis): the
single retained entry of a one-destination reduction satisfies the mean/percentile
characterization. -/
theorem C4_avg_p95_witness :
    ∃ ds, (("Y", mkStat [7]).1, ds) ∈ [("Y", [(7 : Int)])] ∧ ds ≠ [] ∧
      ("Y", mkStat [7]).2.avg = specMean ds ∧ ("Y", mkStat [7]).2.p95 = specP95 ds :=
  C4_avg_p95.1 [("Y", [7])] ("Y", mkStat [7]) (List.mem_singleton.mpr rfl)

/-! ## C5 -/

theorem durationEntries_cons (p : κ × List Int) (fs : List (κ × List Int)) :
    durationEntries (p :: fs) =
      (if p.2.length > 0 then [(p.1, mkStat p.2)] else []) ++ durationEntries fs := by
  by_cases h : p.2.length > 0
  · simp [durationEntries, List.filterMap_cons, h]
  · simp [durationEntries, List.filterMap_cons, h]

theorem durationEntries_length (fd : List (κ × List Int)) :
    (durationEntries fd).length = (fd.filter (fun p => p.2.length > 0)).length := by
  induction fd with
  | nil => rfl
  | cons p fs ih =>
      rw [durationEntries_cons]
      by_cases h : p.2.length > 0
      · rw [if_pos h]
        simp [List.filter_cons, h, ih]
      · rw [if_neg h]
        simp [List.filter_cons, h, ih]

theorem durationEntries_keys_sublist (fd : List (κ × List Int)) :
    List.Sublist ((durationEntries fd).map Prod.fst) (fd.map Prod.fst) := by
  induction fd with
  | nil => exact List.Sublist.refl _
  | cons p fs ih =>
      rw [durationEntries_cons, List.map_append, List.map_cons]
      by_cases h : p.2.length > 0
      · rw [if_pos h]
        exact List.Sublist.cons₂ p.1 ih
      · rw [if_neg h, List.map_nil, List.nil_append]
        exact List.Sublist.cons p.1 ih

theorem durationEntries_nodup {fd : List (κ × List Int)}
    (hnd : (fd.map Prod.fst).Nodup) : (durationEntries fd).Nodup := by
  have h1 : ((durationEntries fd).map Prod.fst).Nodup :=
    List.Nodup.sublist (durationEntries_keys_sublist fd) hnd
  exact h1.of_map Prod.fst

theorem pair_sublist_take {α : Type} : ∀ (l : List α) (n : Nat) (x y : α),
    l.Nodup → List.Sublist [x, y] l → x ∈ l.take n → y ∈ l.take n →
    List.Sublist [x, y] (l.take n) := by
  intro l
  induction l with
  | nil =>
      intro n x y _ h _ _
      simp at h
  | cons a l ih =>
      intro n x y hnd h hx hy
      cases n with
      | zero => simp at hx
      | succ m =>
          simp only [List.take_succ_cons] at hx hy ⊢
          have hal : a ∉ l := (List.nodup_cons.mp hnd).1
          cases h with
          | cons _ h2 =>
              have hxl : x ∈ l := h2.subset (by simp)
              have hyl : y ∈ l := h2.subset (by simp)
              have hxa : x ≠ a := fun he => hal (he ▸ hxl)
              have hya : y ≠ a := fun he => hal (he ▸ hyl)
              have hx2 : x ∈ l.take m := by
                rcases List.mem_cons.mp hx with hc | hc
                · exact absurd hc hxa
                · exact hc
              have hy2 : y ∈ l.take m := by
                rcases List.mem_cons.mp hy with hc | hc
                · exact absurd hc hya
                · exact hc
              exact (ih m x y (List.nodup_cons.mp hnd).2 h2 hx2 hy2).cons a
          | cons₂ _ h2 =>
              have hyl : y ∈ l := h2.subset (by simp)
              have hya : y ≠ a := fun he => hal (he ▸ hyl)
              have hy2 : y ∈ l.take m := by
                rcases List.mem_cons.mp hy with hc | hc
                · exact absurd hc hya
                · exact hc
              exact List.Sublist.cons₂ a (List.singleton_sublist.mpr hy2)

/-- C5: the duration reduction returns exactly `min 25 k` entries where `k` is the
number of destinations with at least one sample (so at most 25, and fewer when fewer
destinations have samples); the returned entries are ordered by per-destination sample
count descending; every returned entry comes from a destination with a non-empty sample
list; the order is stable under duplicate counts: two retained entries with equal
sample counts keep their relative insertion order; and selection is by sample count:
any eligible destination left out of the result has a sample count not exceeding that
of every retained entry. -/
theorem C5_top25 (fd : List (String × List Int))
    (hnd : (fd.map Prod.fst).Nodup) :
    (calculate_duration_stats fd).length =
      min 25 (fd.filter (fun p => p.2.length > 0)).length ∧
    (calculate_duration_stats fd).Pairwise
      (fun a b => sampleCount fd b.1 ≤ sampleCount fd a.1) ∧
    (∀ p ∈ calculate_duration_stats fd, ∃ ds, (p.1, ds) ∈ fd ∧ ds ≠ []) ∧
    (∀ x y : String × DurationStat, List.Sublist [x, y] (durationEntries fd) →
      sampleCount fd x.1 = sampleCount fd y.1 →
      x ∈ calculate_duration_stats fd → y ∈ calculate_duration_stats fd →
      List.Sublist [x, y] (calculate_duration_stats fd)) ∧
    (∀ q ∈ durationEntries fd, q ∉ calculate_duration_stats fd →
      ∀ p ∈ calculate_duration_stats fd, sampleCount fd q.1 ≤ sampleCount fd p.1) := by
  haveI hto : IsTotal (String × DurationStat)
      (fun a b => sampleCount fd b.1 ≤ sampleCount fd a.1) :=
    ⟨fun a b => Nat.le_total _ _⟩
  haveI htr : IsTrans (String × DurationStat)
      (fun a b => sampleCount fd b.1 ≤ sampleCount fd a.1) :=
    ⟨fun a b c h1 h2 => le_trans h2 h1⟩
  refine ⟨?_, ?_, ?_, ?_, ?_⟩
  · unfold calculate_duration_stats
    rw [List.length_take, List.length_insertionSort, durationEntries_length]
  · unfold calculate_duration_stats
    apply List.Pairwise.sublist (List.take_sublist _ _)
    exact List.sorted_insertionSort _ (durationEntries fd)
  · intro p hp
    obtain ⟨ds, h1, h2, -⟩ := mem_duration_stats hp
    exact ⟨ds, h1, h2⟩
  · intro x y hsub hcnt hx hy
    have hnd2 : (durationEntries fd).Nodup := durationEntries_nodup hnd
    have hsorted : List.Sublist [x, y] ((durationEntries fd).insertionSort
        (fun a b => sampleCount fd b.1 ≤ sampleCount fd a.1)) :=
      List.pair_sublist_insertionSort (le_of_eq hcnt.symm) hsub
    have hndsort : (((durationEntries fd).insertionSort
        (fun a b => sampleCount fd b.1 ≤ sampleCount fd a.1))).Nodup :=
      (List.perm_insertionSort _ _).nodup_iff.mpr hnd2
    exact pair_sublist_take _ 25 x y hndsort hsorted hx hy
  · intro q hq hqnot p hp
    unfold calculate_duration_stats at hqnot hp
    have hsort := List.sorted_insertionSort
      (fun a b => sampleCount fd b.1 ≤ sampleCount fd a.1) (durationEntries fd)
    set s := (durationEntries fd).insertionSort
      (fun a b => sampleCount fd b.1 ≤ sampleCount fd a.1) with hs
    have hqs : q ∈ s := (List.mem_insertionSort _).mpr hq
    have hsplit : s.take 25 ++ s.drop 25 = s := List.take_append_drop 25 s
    have hpair : (s.take 25 ++ s.drop 25).Pairwise
        (fun a b => sampleCount fd b.1 ≤ sampleCount fd a.1) := by
      rw [hsplit]
      exact hsort
    have hqd : q ∈ s.drop 25 := by
      have hmem : q ∈ s.take 25 ++ s.drop 25 := by
        rw [hsplit]
        exact hqs
      rcases List.mem_append.mp hmem with hcase | hcase
      · exact absurd hcase hqnot
      · exact hcase
    exact (List.pairwise_append.mp hpair).2.2 p hp q hqd

/-- Witness for `C5_top25` at a concrete mapping with a tied pair of counts and one
zero-sample destination. -/
theorem C5_top25_witness :
    (calculate_duration_stats [("X", [(1 : Int), 2]), ("Y", [3]), ("Z", [])]).length =
      min 25 (([("X", [(1 : Int), 2]), ("Y", [3]), ("Z", [])]).filter
        (fun p => p.2.length > 0)).length ∧
    (calculate_duration_stats [("X", [(1 : Int), 2]), ("Y", [3]), ("Z", [])]).Pairwise
      (fun a b => sampleCount [("X", [(1 : Int), 2]), ("Y", [3]), ("Z", [])] b.1 ≤
        sampleCount [("X", [(1 : Int), 2]), ("Y", [3]), ("Z", [])] a.1) ∧
    (∀ p ∈ calculate_duration_stats [("X", [(1 : Int), 2]), ("Y", [3]), ("Z", [])],
      ∃ ds, (p.1, ds) ∈ [("X", [(1 : Int), 2]), ("Y", [3]), ("Z", [])] ∧ ds ≠ []) ∧
    (∀ x y : String × DurationStat,
      List.Sublist [x, y] (durationEntries [("X", [(1 : Int), 2]), ("Y", [3]), ("Z", [])]) →
      sampleCount [("X", [(1 : Int), 2]), ("Y", [3]), ("Z", [])] x.1 =
        sampleCount [("X", [(1 : Int), 2]), ("Y", [3]), ("Z", [])] y.1 →
      x ∈ calculate_duration_stats [("X", [(1 : Int), 2]), ("Y", [3]), ("Z", [])] →
      y ∈ calculate_duration_stats [("X", [(1 : Int), 2]), ("Y", [3]), ("Z", [])] →
      List.Sublist [x, y]
        (calculate_duration_stats [("X", [(1 : Int), 2]), ("Y", [3]), ("Z", [])])) ∧
    (∀ q ∈ durationEntries [("X", [(1 : Int), 2]), ("Y", [3]), ("Z", [])],
      q ∉ calculate_duration_stats [("X", [(1 : Int), 2]), ("Y", [3]), ("Z", [])] →
      ∀ p ∈ calculate_duration_stats [("X", [(1 : Int), 2]), ("Y", [3]), ("Z", [])],
        sampleCount [("X", [(1 : Int), 2]), ("Y", [3]), ("Z", [])] q.1 ≤
          sampleCount [("X", [(1 : Int), 2]), ("Y", [3]), ("Z", [])] p.1) :=
  C5_top25 [("X", [1, 2]), ("Y", [3]), ("Z", [])] (by decide)
